import Mathlib

/-!
Verification of the liaison distributed experience pipeline against its
natural-language specification.

Shallow embedding of the relevant Python sources:
  * `liaison/distributed/exp_collector.py` — `ExperienceCollectorServer`
    (`run` and `_retrieve_storage`);
  * `liaison/distributed/shell.py` — `SyncEveryNSteps.should_sync`,
    `Shell.__init__`'s startup assertion, `Shell._sync_variables`,
    `Shell.restore_from_checkpoint`;
  * `liaison/distributed/actor_full_episode.py` — `Actor.run_loop`;
  * the `UniformReplay` buffer, whose implementation is not among the
    sources (only its test `liaison/replay/replay_test.py` is), modelled
    from the specification.

Python values are modelled by the inductive type `Exp` (nested dicts and
lists of strings and opaque payloads); Python dicts by insertion-ordered
association lists with Python assignment/deletion semantics; exceptions
(`KeyError`, `ZeroDivisionError`, `AssertionError`, `RecursionError`,
explicit `raise`) by `Except String`.  The process-wide
`weakref.WeakValueDictionary` cache is modelled as an ordinary map; the
weak (garbage-collectable) character of its entries is reflected by
stating cache-hit theorems under an explicit hypothesis that the entry is
still present, which corresponds to the referenced payload still being
alive.  Since `_retrieve_storage` mutates the dict it walks while
re-reading values through the mutated dict, its recursion is not
structural; Python's recursion-depth limit is modelled by an explicit
fuel argument whose exhaustion is the error `RecursionError`.
-/

namespace Liaison

/-- A Python value as handled by `_retrieve_storage`: nested lists and
dicts, strings (the only values ever treated as dedup hashes), and
opaque terminal payloads (numpy arrays etc.), modelled by a numeric
tag. -/
inductive Exp where
  | vlist : List Exp → Exp
  | vdict : List (String × Exp) → Exp
  | vstr : String → Exp
  | vpay : Nat → Exp

/-- An insertion-ordered Python dict with `Exp` values (used for
experience dicts, storage chunks and the weak-reference cache). -/
abbrev Dict := List (String × Exp)

/-- Python `d[k]` read: first binding for the key, if any. -/
def dictGet (d : Dict) (k : String) : Option Exp :=
  match d with
  | [] => none
  | (k', v) :: rest => if k' = k then some v else dictGet rest k

/-- Python `d[k] = v`: overwrite in place if the key exists, otherwise
append at the end (insertion order). -/
def dictSet (d : Dict) (k : String) (v : Exp) : Dict :=
  match d with
  | [] => [(k, v)]
  | (k', v') :: rest =>
    if k' = k then (k', v) :: rest else (k', v') :: dictSet rest k v

/-- Python `del d[k]`: remove the binding for the key. -/
def dictDel (d : Dict) (k : String) : Dict :=
  match d with
  | [] => []
  | (k', v') :: rest =>
    if k' = k then rest else (k', v') :: dictDel rest k

/-- The reserved dedup suffix of `exp_collector.py`. -/
def hashSuffix : String := "_hash"

/-- Python `s.endswith(pat)`: the characters of `pat` are a suffix of
the characters of `s`. -/
def strEndsWith (s pat : String) : Bool :=
  pat.data.isSuffixOf s.data

/-- Python `s[:-n]` for `0 < n ≤ len(s)` (and `s[:-n] = ""` when
`n ≥ len(s)`): drop the last `n` characters. -/
def strDropRightN (s : String) (n : Nat) : String :=
  String.mk (s.data.take (s.data.length - n))

/-- The list-element loop of `_retrieve_storage`
(`for i, e in enumerate(exp): exp[i] = self._retrieve_storage(e, storage)`),
parameterised by the recursive resolution call `f`. -/
def retrieveListGo (f : Exp → Dict → Except String (Exp × Dict)) :
    List Exp → Dict → Except String (List Exp × Dict)
  | [], cache => .ok ([], cache)
  | e :: es, cache =>
    match f e cache with
    | .error err => .error err
    | .ok (e', cache') =>
      match retrieveListGo f es cache' with
      | .error err => .error err
      | .ok (es', cache'') => .ok (e' :: es', cache'')

/-- The dict-key loop of `_retrieve_storage` (`for key in list(exp.keys()):`):
iterate over a copy of the original key list while reading and updating
the (evolving) dict itself, parameterised by the recursive resolution
call `f`.  For a key ending in `_hash` the suffix is stripped, the
resolved value is stored under the stripped key and the suffixed key is
deleted; for any other key the resolved value replaces it in place. -/
def retrieveKeysGo (f : Exp → Dict → Except String (Exp × Dict)) :
    List String → Dict → Dict → Except String (Dict × Dict)
  | [], d, cache => .ok (d, cache)
  | k :: ks, d, cache =>
    if strEndsWith k hashSuffix then
      match dictGet d k with
      | none => .error ("KeyError: " ++ k)
      | some v =>
        match f v cache with
        | .error err => .error err
        | .ok (v', cache') =>
          retrieveKeysGo f ks (dictDel (dictSet d (strDropRightN k hashSuffix.length) v') k)
            cache'
    else
      match dictGet d k with
      | none => .error ("KeyError: " ++ k)
      | some v =>
        match f v cache with
        | .error err => .error err
        | .ok (v', cache') => retrieveKeysGo f ks (dictSet d k v') cache'

/-- `ExperienceCollectorServer._retrieve_storage(self, exp, storage)`:
resolves dedup hash references in `exp` against the weak-reference
cache `self._weakref_map` and the message's `storage` chunk, returning
the resolved value together with the updated cache.  `fuel` bounds the
recursion depth (Python's recursion limit, whose overrun is
`RecursionError`); each recursive Python call consumes one unit. -/
def retrieveStorage : Nat → Exp → Dict → Dict → Except String (Exp × Dict)
  | 0, _, _, _ => .error "RecursionError"
  | fuel + 1, exp, storage, cache =>
    match exp with
    | .vlist es =>
      match retrieveListGo (fun e c => retrieveStorage fuel e storage c) es cache with
      | .error e => .error e
      | .ok (es', cache') => .ok (.vlist es', cache')
    | .vdict d =>
      match retrieveKeysGo (fun e c => retrieveStorage fuel e storage c)
          (d.map Prod.fst) d cache with
      | .error e => .error e
      | .ok (d', cache') => .ok (.vdict d', cache')
    | .vstr exphash =>
      match dictGet cache exphash with
      | some v => .ok (v, cache)
      | none =>
        match dictGet storage exphash with
        | some v => .ok (v, dictSet cache exphash v)
        | none => .error ("KeyError: " ++ exphash)
    | .vpay n => .ok (.vpay n, cache)

/-- The list-element loop of `_retrieve_storage` at recursion budget
`fuel` for the element calls. -/
def retrieveList (fuel : Nat) (es : List Exp) (storage cache : Dict) :
    Except String (List Exp × Dict) :=
  retrieveListGo (fun e c => retrieveStorage fuel e storage c) es cache

/-- The dict-key loop of `_retrieve_storage` at recursion budget `fuel`
for the value calls. -/
def retrieveKeys (fuel : Nat) (ks : List String) (d storage cache : Dict) :
    Except String (Dict × Dict) :=
  retrieveKeysGo (fun e c => retrieveStorage fuel e storage c) ks d cache

/-- Python iteration over the value returned by `_retrieve_storage`
(`for exp in experience_list:` in `run`): a list yields its elements, a
dict its keys, a string its one-character substrings; an opaque payload
is not iterable (`TypeError`). -/
def iterUnits : Exp → Except String (List Exp)
  | .vlist es => .ok es
  | .vdict d => .ok (d.map (fun kv => Exp.vstr kv.1))
  | .vstr s => .ok (s.toList.map (fun c => Exp.vstr (String.mk [c])))
  | .vpay _ => .error "TypeError: object is not iterable"

/-- One iteration of the `while True` body of
`ExperienceCollectorServer.run`: after `exp, storage = self.receiver.recv()`,
resolve the payload and hand each unit of the result to
`self._exp_handler`, in iteration order.  Returns the handler-call trace
and the updated weak-reference cache. -/
def processMessage (fuel : Nat) (exp : Exp) (storage : Dict) (cache : Dict) :
    Except String (List Exp × Dict) :=
  match retrieveStorage fuel exp storage cache with
  | .error e => .error e
  | .ok (res, cache') =>
    match iterUnits res with
    | .error e => .error e
    | .ok units => .ok (units, cache')

/-- `ExperienceCollectorServer.run` restricted to a finite prefix of the
inbound message stream.  The loop body has no exception handler, so the
first uncaught exception terminates the thread; the result is the full
trace of `self._exp_handler` invocations together with the error (if
any) that ended the loop. -/
def runServer (fuel : Nat) : List (Exp × Dict) → Dict → List Exp × Option String
  | [], _ => ([], none)
  | (exp, storage) :: msgs, cache =>
    match processMessage fuel exp storage cache with
    | .error e => ([], some e)
    | .ok (units, cache') =>
      let rest := runServer fuel msgs cache'
      (units ++ rest.1, rest.2)

/-! ### `shell.py`: `SyncEveryNSteps` and the startup assertion -/

/-- Python `%` on integers (sign follows the divisor, i.e. floor
division remainder) with the `ZeroDivisionError` raised on a zero
divisor made explicit. -/
def pymod (a b : Int) : Except String Int :=
  if b = 0 then .error "ZeroDivisionError" else .ok (Int.fmod a b)

/-- `SyncEveryNSteps.should_sync(self, step)`:
`return step % self.sync_period == 0`. -/
def shouldSync (syncPeriod step : Int) : Except String Bool :=
  match pymod step syncPeriod with
  | .error e => .error e
  | .ok r => .ok (r == 0)

/-- The sync-checker setup in `Shell.__init__`: with a non-`None`
`sync_period` it builds `SyncEveryNSteps(sync_period)` and runs
`assert self._sync_checker.should_sync(0)`; with `None` it installs
`SyncNever` and checks nothing. -/
def shellInitSyncCheck (syncPeriod : Option Int) : Except String Unit :=
  match syncPeriod with
  | none => .ok ()
  | some p =>
    match shouldSync p 0 with
    | .error e => .error e
    | .ok true => .ok ()
    | .ok false => .error "AssertionError"

/-! ### `shell.py`: `Shell._sync_variables`

`ParameterClient` is not among the sources here, so the fetch itself is
modelled from the spec; `_sync_variables` below follows the source. -/

/-- Modelled from the spec: `ParameterClient.fetch_parameter_with_info`
(class not among the sources; only its caller `Shell._pull_vars` is).
Per the spec it returns `(None, info)` — not an exception — when the
server has not yet published any parameter set, and the published
mapping once one exists. -/
def fetch_parameter_with_info (published : Option (List (String × Int)))
    (info : Int) : Option (List (String × Int)) × Int :=
  (published, info)

/-- Python truthiness of `var_vals` in `if var_vals:`: `None` and the
empty dict are falsy, a non-empty dict is truthy. -/
def pyTruthy (varVals : Option (List (String × Int))) : Bool :=
  match varVals with
  | none => false
  | some l => !l.isEmpty

/-- Association-list read of a parameter mapping (`var_vals[var_name]`),
with `KeyError` explicit. -/
def lookupParam (l : List (String × Int)) (k : String) :
    Except String Int :=
  match l with
  | [] => .error ("KeyError: " ++ k)
  | (k', v) :: rest => if k' = k then .ok v else lookupParam rest k

/-- `Shell._sync_variables`: pull `var_vals` from the parameter client;
if falsy, do nothing; otherwise assert the fetched key set equals the
shell's variable-name set and run one assign op per variable, feeding it
the fetched value.  `vars` is the current variable store (name →
value); tensor values are modelled by `Int`. -/
def syncVariables (varVals : Option (List (String × Int)))
    (variableNames : List String) (vars : List (String × Int)) :
    Except String (List (String × Int)) :=
  if pyTruthy varVals then
    match varVals with
    | none => .error "unreachable"
    | some fetched =>
      if ((fetched.map Prod.fst).mergeSort (· ≤ ·) =
          variableNames.mergeSort (· ≤ ·)) then
        variableNames.foldlM
          (fun acc name =>
            match lookupParam fetched name with
            | .error e => .error e
            | .ok v => .ok (acc.map (fun kv => if kv.1 = name then (kv.1, v) else kv)))
          vars
      else .error "AssertionError"
  else .ok vars

/-! ### `shell.py`: `Shell.restore_from_checkpoint` -/

/-- `k.split(':')[0]` — strip the `:0` suffix off a variable name: the
characters before the first `:` (the whole name if there is none). -/
def stripDeviceSuffix (s : String) : String :=
  String.mk (s.data.takeWhile (fun c => c ≠ ':'))

/-- Python `"/".join(v.split("/")[1:])`: everything after the first
`/`, the empty string when there is no `/`. -/
def afterFirstSlash (s : String) : String :=
  String.mk ((s.data.dropWhile (fun c => c ≠ '/')).drop 1)

/-- The scope rewrite applied to each checkpoint variable name:
`v2 = f'{self._agent_scope}/{"/".join(v.split("/")[1:])}'`. -/
def rewriteScope (scope v : String) : String :=
  scope ++ "/" ++ afterFirstSlash v

/-- Contiguous-occurrence search: does `needle` occur as a contiguous
run inside the second list? -/
def infixOfChars (needle : List Char) : List Char → Bool
  | [] => needle.isEmpty
  | c :: rest => needle.isPrefixOf (c :: rest) || infixOfChars needle rest

/-- Python `needle in haystack` for strings (substring containment). -/
def strContains (haystack needle : String) : Bool :=
  infixOfChars needle.data haystack.data

/-- Python `str.lower` on a single ASCII character. -/
def charLower (c : Char) : Char :=
  if 'A' ≤ c ∧ c ≤ 'Z' then Char.ofNat (c.toNat + 32) else c

/-- Python `s.lower()` (over the ASCII range used in variable names). -/
def strToLower (s : String) : String :=
  String.mk (s.data.map charLower)

/-- The checkpoint names `restore_from_checkpoint` silently skips
("not required for shell"): learner-only variables whose lowercased
name contains `adam`, `value_torso`, `optimize` or `global_step`. -/
def checkpointIgnored (v : String) : Bool :=
  strContains (strToLower v) "adam" || strContains (strToLower v) "value_torso" ||
    strContains (strToLower v) "optimize" || strContains (strToLower v) "global_step"

/-- The loop state of `restore_from_checkpoint`: `restore_map` (modelled
as checkpoint name ↦ matched required name), the set `var_names_left`
and the list `unrestored`. -/
structure RestoreState where
  restoreMap : List (String × String)
  left : List String
  unrestored : List String

/-- The `for v, _ in l:` loop of `restore_from_checkpoint`: each
checkpoint name is scope-rewritten; a name matching a required variable
is recorded and removed from `var_names_left` (`set.remove` raises
`KeyError` when absent, i.e. on a duplicate match); an ignored name is
skipped; anything else is appended to `unrestored`. -/
def restoreScan (scope : String) (varNames : List String) :
    List String → RestoreState → Except String RestoreState
  | [], st => .ok st
  | v :: rest, st =>
    if rewriteScope scope v ∈ varNames then
      if rewriteScope scope v ∈ st.left then
        restoreScan scope varNames rest
          ⟨st.restoreMap ++ [(v, rewriteScope scope v)],
            st.left.erase (rewriteScope scope v), st.unrestored⟩
      else .error ("KeyError: " ++ rewriteScope scope v)
    else if checkpointIgnored v then restoreScan scope varNames rest st
    else restoreScan scope varNames rest
      ⟨st.restoreMap, st.left, st.unrestored ++ [v]⟩

/-- `Shell.restore_from_checkpoint(restore_path)`, with the checkpoint
reduced to its list of variable names (`tf.train.list_variables`) and
the shell to its variable names.  After the scan, a non-empty
`var_names_left` raises, then a non-empty `unrestored` raises; only
then is the `tf.train.Saver` restore performed. -/
def restoreFromCheckpoint (scope : String) (variableNames : List String)
    (checkpointVars : List String) : Except String (List (String × String)) :=
  match restoreScan scope (variableNames.map stripDeviceSuffix) checkpointVars
      ⟨[], (variableNames.map stripDeviceSuffix).dedup, []⟩ with
  | .error e => .error e
  | .ok st =>
    if !st.left.isEmpty then
      .error "Exception: not all required variables restored"
    else if !st.unrestored.isEmpty then
      .error "Exception: unexpected variables found in the checkpoint"
    else .ok st.restoreMap

/-! ### `actor_full_episode.py`: `Actor.run_loop` -/

/-- The send condition in the `while True` body of `Actor.run_loop`:
`if i > 0 and i % self._traj_length == 0:` — `and` short-circuits, so
the modulo (and its possible `ZeroDivisionError`) is evaluated only
when `i > 0`. -/
def shouldSendStep (trajLength i : Nat) : Except String Bool :=
  if 0 < i then
    if trajLength = 0 then .error "ZeroDivisionError"
    else .ok (i % trajLength == 0)
  else .ok false

/-- The iteration indices `i` at which `Actor.run_loop` calls
`self._send_experiences`, over a run with `n_unrolls = n` (the loop
counts `i` from 0, stepping the environment once per iteration and
checking the send condition after the step). -/
def sendSteps (trajLength : Nat) : Nat → Except String (List Nat)
  | 0 => .ok []
  | n + 1 =>
    match sendSteps trajLength n with
    | .error e => .error e
    | .ok l =>
      match shouldSendStep trajLength n with
      | .error e => .error e
      | .ok b => .ok (if b then l ++ [n] else l)

/-! ### `UniformReplay` (spec-modelled) -/

/-- Modelled from the spec: the `UniformReplay` implementation is not
among the sources here (only its driver `replay_test.py` is).  Per the
spec the buffer is a bounded FIFO ring of capacity `memory_size`:
entries are kept oldest first, `insert` appends and, at capacity,
evicts the oldest entry; insert never fails. -/
structure UniformReplay (α : Type) where
  memorySize : Nat
  entries : List α

/-- Modelled from the spec: a fresh replay buffer of capacity
`memorySize` holds no entries. -/
def UniformReplay.empty (α : Type) (memorySize : Nat) : UniformReplay α :=
  ⟨memorySize, []⟩

/-- Modelled from the spec: `insert(experience)` appends; if at
capacity, evicts oldest entry first (FIFO); returns the new buffer,
never an error. -/
def UniformReplay.insert (r : UniformReplay α) (x : α) : UniformReplay α :=
  let s := r.entries ++ [x]
  ⟨r.memorySize, if r.memorySize < s.length then s.drop (s.length - r.memorySize) else s⟩

/-- `len(replay)`: the number of stored entries. -/
def UniformReplay.size (r : UniformReplay α) : Nat := r.entries.length

/-- A sequence of inserts, oldest first (as driven by
`ReplayTest.testReplay`'s send loop). -/
def UniformReplay.insertAll (r : UniformReplay α) (xs : List α) : UniformReplay α :=
  xs.foldl UniformReplay.insert r

/-! ### Helper lemmas -/

theorem dictGet_dictSet_self (d : Dict) (k : String) (v : Exp) :
    dictGet (dictSet d k v) k = some v := by
  induction d with
  | nil => simp [dictSet, dictGet]
  | cons kv rest ih =>
    by_cases hk : kv.1 = k
    · simp [dictSet, dictGet, hk]
    · simp [dictSet, dictGet, hk, ih]

theorem retrieveListGo_length (f : Exp → Dict → Except String (Exp × Dict)) :
    ∀ (es : List Exp) (cache : Dict) (es' : List Exp) (cache' : Dict),
      retrieveListGo f es cache = .ok (es', cache') → es'.length = es.length := by
  intro es
  induction es with
  | nil =>
    intro cache es' cache' h
    simp [retrieveListGo] at h
    simp [h.1]
  | cons e es ih =>
    intro cache es' cache' h
    rw [retrieveListGo] at h
    cases h1 : f e cache with
    | error err => rw [h1] at h; exact absurd h (by simp)
    | ok r =>
      obtain ⟨e1, c1⟩ := r
      rw [h1] at h
      simp only [] at h
      cases h2 : retrieveListGo f es c1 with
      | error err => rw [h2] at h; exact absurd h (by simp)
      | ok r2 =>
        obtain ⟨es2, c2⟩ := r2
        rw [h2] at h
        simp at h
        have := ih c1 es2 c2 h2
        simp [← h.1, this]

theorem retrieveList_length (fuel : Nat) (es : List Exp) (storage : Dict)
    (cache : Dict) (es' : List Exp) (cache' : Dict)
    (h : retrieveList fuel es storage cache = .ok (es', cache')) :
    es'.length = es.length :=
  retrieveListGo_length _ es cache es' cache' h

theorem retrieveStorage_str (fuel : Nat) (h : String) (storage cache : Dict) :
    retrieveStorage (fuel + 1) (.vstr h) storage cache =
      match dictGet cache h with
      | some v => .ok (v, cache)
      | none =>
        match dictGet storage h with
        | some v => .ok (v, dictSet cache h v)
        | none => .error ("KeyError: " ++ h) := rfl

theorem retrieveKeysGo_cons_hash (f : Exp → Dict → Except String (Exp × Dict))
    (ks : List String) (d cache : Dict) (k : String) (v v' : Exp) (cache' : Dict)
    (hk : strEndsWith k hashSuffix = true) (hv : dictGet d k = some v)
    (hf : f v cache = .ok (v', cache')) :
    retrieveKeysGo f (k :: ks) d cache =
      retrieveKeysGo f ks (dictDel (dictSet d (strDropRightN k hashSuffix.length) v') k)
        cache' := by
  rw [retrieveKeysGo]
  simp [hk, hv, hf]

theorem retrieveKeysGo_cons_nonhash (f : Exp → Dict → Except String (Exp × Dict))
    (ks : List String) (d cache : Dict) (k : String) (v : Exp)
    (hk : strEndsWith k hashSuffix = false) (hv : dictGet d k = some v) :
    retrieveKeysGo f (k :: ks) d cache =
      match f v cache with
      | .error e => .error e
      | .ok (v', cache') => retrieveKeysGo f ks (dictSet d k v') cache' := by
  rw [retrieveKeysGo]
  simp [hk, hv]

/-! ### Claim theorems -/

/-- C1: for every nested record and storage chunk, `_retrieve_storage`
handles each dictionary key ending in the reserved suffix `_hash` (with
a string hash as value) by stripping the suffix, looking the hash up
first in the process-wide weak-reference cache and, only on a miss, in
the storage chunk; on a miss it caches the resolved object keyed on the
hash; in both cases it stores the resolved object under the unsuffixed
key and deletes the original suffixed key, then continues with the
remaining keys.  (`retrieveKeys` is the dict-processing loop applied at
every nesting level of the record.) -/
theorem hash_key_resolution (fuel : Nat) (ks : List String) (d storage cache : Dict)
    (k h : String) (hk : strEndsWith k hashSuffix = true)
    (hv : dictGet d k = some (.vstr h)) :
    (∀ v, dictGet cache h = some v →
      retrieveKeys (fuel + 1) (k :: ks) d storage cache =
        retrieveKeys (fuel + 1) ks
          (dictDel (dictSet d (strDropRightN k hashSuffix.length) v) k) storage cache)
    ∧ (dictGet cache h = none → ∀ v, dictGet storage h = some v →
      retrieveKeys (fuel + 1) (k :: ks) d storage cache =
        retrieveKeys (fuel + 1) ks
          (dictDel (dictSet d (strDropRightN k hashSuffix.length) v) k) storage
          (dictSet cache h v)) := by
  constructor
  · intro v hcache
    unfold retrieveKeys
    exact retrieveKeysGo_cons_hash _ ks d cache k (.vstr h) v cache hk hv
      (by rw [retrieveStorage_str, hcache])
  · intro hcache v hstorage
    unfold retrieveKeys
    exact retrieveKeysGo_cons_hash _ ks d cache k (.vstr h) v (dictSet cache h v) hk hv
      (by rw [retrieveStorage_str, hcache, hstorage])

/-- Witness for C1: a concrete record `{"payload_hash": "h"}` with
chunk `{"h": payload}` and an empty cache takes the storage branch. -/
theorem hash_key_resolution_witness :
    retrieveKeys 2 ["payload_hash"] [("payload_hash", .vstr "h")] [("h", .vpay 5)] [] =
      retrieveKeys 2 []
        (dictDel (dictSet [("payload_hash", .vstr "h")]
          (strDropRightN "payload_hash" hashSuffix.length) (.vpay 5)) "payload_hash")
        [("h", .vpay 5)] (dictSet [] "h" (.vpay 5)) :=
  (hash_key_resolution 1 [] [("payload_hash", .vstr "h")] [("h", .vpay 5)] []
    "payload_hash" "h" (by decide) rfl).2 rfl (.vpay 5) rfl

/-- C3 counterexample: a plain string value under a key that does not
end in `_hash` does not pass through `_retrieve_storage` unchanged —
the `isinstance(exp, str)` branch treats every string value as a hash
reference, so `{"a": "xyz"}` with chunk `{"xyz": 42}` resolves to
`{"a": 42}`. -/
theorem plain_string_not_preserved :
    retrieveStorage 2 (.vdict [("a", .vstr "xyz")]) [("xyz", .vpay 42)] [] =
      .ok (.vdict [("a", .vpay 42)], [("xyz", .vpay 42)])
    ∧ Exp.vdict [("a", .vpay 42)] ≠ Exp.vdict [("a", .vstr "xyz")] := by
  refine ⟨by rfl, ?_⟩
  intro hcontra
  injection hcontra with h1
  injection h1 with h2 h3
  injection h2 with h4 h5
  exact Exp.noConfusion h5

/-- C3 as amended: values under keys not ending in `_hash` are recursed
into in place (the dict keeps the key, bound to the recursively
resolved value), and every terminal value that is not a container and
not a string passes through `_retrieve_storage` unchanged; string
values, under any key, are instead treated as hash references. -/
theorem nonhash_keys_recursed_nonstring_terminals_unchanged
    (fuel : Nat) (ks : List String) (d storage cache : Dict) (k : String) (v : Exp)
    (hk : strEndsWith k hashSuffix = false) (hv : dictGet d k = some v) :
    (retrieveKeys (fuel + 1) (k :: ks) d storage cache =
      match retrieveStorage (fuel + 1) v storage cache with
      | .error e => .error e
      | .ok (v', cache') => retrieveKeys (fuel + 1) ks (dictSet d k v') storage cache')
    ∧ (∀ n, retrieveStorage (fuel + 1) (.vpay n) storage cache = .ok (.vpay n, cache)) := by
  constructor
  · unfold retrieveKeys
    exact retrieveKeysGo_cons_nonhash _ ks d cache k v hk hv
  · intro n
    rfl

/-- Witness for the amended C3: the record `{"a": payload}` keeps key
`"a"` and its non-string terminal value unchanged. -/
theorem nonhash_keys_recursed_witness :
    (retrieveKeys 1 ["a"] [("a", .vpay 7)] [] [] =
      match retrieveStorage 1 (.vpay 7) [] [] with
      | .error e => .error e
      | .ok (v', cache') => retrieveKeys 1 [] (dictSet [("a", .vpay 7)] "a" v') [] cache')
    ∧ (∀ n, retrieveStorage 1 (.vpay n) [] [] = .ok (.vpay n, [])) :=
  nonhash_keys_recursed_nonstring_terminals_unchanged 0 [] [("a", .vpay 7)] [] []
    "a" (.vpay 7) (by decide) rfl

/-- C2 counterexample: a hash reference present in neither the cache
nor the chunk does raise a `KeyError`, but the server loop is crashed
by it — with a failing first message, a well-formed second message is
never dispatched (second conjunct: the same second message alone would
have produced one handler call), because the `while True` body of
`run` has no exception handler. -/
theorem missing_hash_crashes_loop_cex :
    runServer 3 [(.vlist [.vstr "zzz"], []), (.vlist [.vpay 1], [])] [] =
      ([], some "KeyError: zzz")
    ∧ runServer 3 [(.vlist [.vpay 1], [])] [] = ([Exp.vpay 1], none) := by
  constructor <;> rfl

/-- C2 as amended: if a hash reference resolves in neither the
weak-reference cache nor the storage chunk, `_retrieve_storage` raises
a `KeyError` for that message (it does not silently drop the
reference); the uncaught exception terminates the collector server
loop, so no subsequent message is received or processed. -/
theorem missing_hash_raises_and_kills_loop (fuel : Nat) (h : String)
    (storage cache : Dict) (hc : dictGet cache h = none)
    (hs : dictGet storage h = none) :
    retrieveStorage (fuel + 1) (.vstr h) storage cache = .error ("KeyError: " ++ h)
    ∧ ∀ msgs, runServer (fuel + 1) ((Exp.vstr h, storage) :: msgs) cache =
        ([], some ("KeyError: " ++ h)) := by
  have hstr : retrieveStorage (fuel + 1) (.vstr h) storage cache =
      .error ("KeyError: " ++ h) := by
    rw [retrieveStorage_str, hc, hs]
  refine ⟨hstr, fun msgs => ?_⟩
  rw [runServer]
  simp [processMessage, hstr]

/-- Witness for the amended C2: hash `"zzz"` with an empty chunk and
empty cache. -/
theorem missing_hash_raises_witness :
    retrieveStorage 1 (.vstr "zzz") [] [] = .error ("KeyError: " ++ "zzz")
    ∧ ∀ msgs, runServer 1 ((Exp.vstr "zzz", []) :: msgs) [] =
        ([], some ("KeyError: " ++ "zzz")) :=
  missing_hash_raises_and_kills_loop 0 "zzz" [] [] rfl rfl

/-- C5: for an inbound message whose experience payload is a list of
units, the server invokes the handler exactly once per unit (the trace
has one entry per unit), in list order, each unit being the resolution
of the corresponding incoming unit against the message's storage chunk
(the element loop threads the cache left to right); the loop then
continues with the remaining messages. -/
theorem list_units_dispatched (fuel : Nat) (units : List Exp)
    (storage cache : Dict) (us : List Exp) (cache' : Dict)
    (hres : retrieveList fuel units storage cache = .ok (us, cache')) :
    processMessage (fuel + 1) (.vlist units) storage cache = .ok (us, cache')
    ∧ us.length = units.length
    ∧ ∀ msgs, runServer (fuel + 1) ((Exp.vlist units, storage) :: msgs) cache =
        (us ++ (runServer (fuel + 1) msgs cache').1, (runServer (fuel + 1) msgs cache').2) := by
  have hproc : processMessage (fuel + 1) (.vlist units) storage cache = .ok (us, cache') := by
    unfold processMessage
    have : retrieveStorage (fuel + 1) (.vlist units) storage cache =
        .ok (.vlist us, cache') := by
      show (match retrieveListGo (fun e c => retrieveStorage fuel e storage c) units cache with
        | Except.error e => Except.error e
        | Except.ok (es', c') => Except.ok (Exp.vlist es', c')) = Except.ok (.vlist us, cache')
      rw [show retrieveListGo (fun e c => retrieveStorage fuel e storage c) units cache =
        .ok (us, cache') from hres]
    rw [this]
    rfl
  refine ⟨hproc, retrieveList_length fuel units storage cache us cache' hres, fun msgs => ?_⟩
  rw [runServer]
  simp [hproc]

/-- Witness for C5: a two-unit message, one unit a dedup hash and one a
plain payload, dispatched as two resolved experiences in order. -/
theorem list_units_dispatched_witness :
    processMessage 2 (.vlist [.vstr "h", .vpay 9]) [("h", .vpay 5)] [] =
      .ok ([Exp.vpay 5, Exp.vpay 9], [("h", Exp.vpay 5)])
    ∧ ([Exp.vpay 5, Exp.vpay 9] : List Exp).length =
        ([Exp.vstr "h", Exp.vpay 9] : List Exp).length
    ∧ ∀ msgs, runServer 2 ((Exp.vlist [.vstr "h", .vpay 9], [("h", .vpay 5)]) :: msgs) [] =
        ((Exp.vpay 5 :: Exp.vpay 9 :: (runServer 2 msgs [("h", Exp.vpay 5)]).1),
          (runServer 2 msgs [("h", Exp.vpay 5)]).2) :=
  list_units_dispatched 1 [.vstr "h", .vpay 9] [("h", .vpay 5)] []
    [Exp.vpay 5, Exp.vpay 9] [("h", Exp.vpay 5)] rfl

/-- C6: when two sequentially processed messages reference the same
hash, and the entry cached while resolving the first is still alive
(still present in the weak-reference cache) when the second is
processed, the second resolution is a cache hit returning the identical
cached object — even when the second message's storage chunk does not
contain the hash.  The first conjunct shows the first message caching
the payload it resolved from its chunk; the second shows the second
message's resolution from the cache alone. -/
theorem cache_hit_across_messages (fuel₁ fuel₂ : Nat) (h : String) (v : Exp)
    (storage₁ storage₂ cache₀ : Dict) (h₀ : dictGet cache₀ h = none)
    (h₁ : dictGet storage₁ h = some v) (h₂ : dictGet storage₂ h = none) :
    retrieveStorage (fuel₁ + 1) (.vstr h) storage₁ cache₀ = .ok (v, dictSet cache₀ h v)
    ∧ retrieveStorage (fuel₂ + 1) (.vstr h) storage₂ (dictSet cache₀ h v) =
        .ok (v, dictSet cache₀ h v) := by
  constructor
  · rw [retrieveStorage_str, h₀, h₁]
  · rw [retrieveStorage_str, dictGet_dictSet_self]

/-- Witness for C6: hash `"abc123"` carried by the first message's
chunk only; the second message carries an empty chunk and still
resolves to the same payload. -/
theorem cache_hit_across_messages_witness :
    retrieveStorage 1 (.vstr "abc123") [("abc123", .vpay 7)] [] =
      .ok (.vpay 7, dictSet [] "abc123" (.vpay 7))
    ∧ retrieveStorage 1 (.vstr "abc123") [] (dictSet [] "abc123" (.vpay 7)) =
        .ok (.vpay 7, dictSet [] "abc123" (.vpay 7)) :=
  cache_hit_across_messages 0 0 "abc123" (.vpay 7) [("abc123", .vpay 7)] [] []
    rfl rfl rfl

/-- C7: when the parameter server has not yet published any parameter
set, the shell's fetch returns `(None, info)` rather than raising an
exception, and `Shell._sync_variables` performs no assignments: the
variable store comes back exactly as it was. -/
theorem fetch_none_no_assignments (info : Int) (variableNames : List String)
    (vars : List (String × Int)) :
    fetch_parameter_with_info none info = (none, info)
    ∧ syncVariables none variableNames vars = .ok vars :=
  ⟨rfl, rfl⟩

/-- C9: for every integer `sync_period ≥ 1`,
`SyncEveryNSteps(sync_period).should_sync(0)` is true, so the `Shell`
constructor's startup assertion passes; for `sync_period = 0` the same
check raises `ZeroDivisionError` (the modulo is unguarded) instead of
failing the assertion cleanly. -/
theorem sync_at_step_zero (p : Int) (hp : 1 ≤ p) :
    shouldSync p 0 = .ok true ∧ shellInitSyncCheck (some p) = .ok ()
    ∧ shouldSync 0 0 = .error "ZeroDivisionError"
    ∧ shellInitSyncCheck (some 0) = .error "ZeroDivisionError" := by
  have hp0 : p ≠ 0 := by omega
  have h1 : shouldSync p 0 = .ok true := by
    unfold shouldSync pymod
    simp [hp0, Int.zero_fmod]
  refine ⟨h1, ?_, rfl, rfl⟩
  show (match shouldSync p 0 with
    | Except.error e => Except.error e
    | Except.ok true => Except.ok ()
    | Except.ok false => Except.error "AssertionError") = Except.ok ()
  rw [h1]

/-- Witness for C9 at `sync_period = 3`. -/
theorem sync_at_step_zero_witness :
    shouldSync 3 0 = .ok true ∧ shellInitSyncCheck (some 3) = .ok ()
    ∧ shouldSync 0 0 = .error "ZeroDivisionError"
    ∧ shellInitSyncCheck (some 0) = .error "ZeroDivisionError" :=
  sync_at_step_zero 3 (by decide)

/-- C10: in the full-episode actor's run loop with `traj_length ≥ 1`,
no experience is sent at step 0, and experience is sent exactly at the
steps `i` with `i > 0` and `i` divisible by `traj_length`; hence every
transmission happens at step `traj_length` or later, and transmissions
recur every `traj_length` steps. -/
theorem send_steps_exact (tl : Nat) (htl : 1 ≤ tl) (n : Nat) :
    ∃ l, sendSteps tl n = .ok l
      ∧ (∀ i, i ∈ l ↔ i < n ∧ 0 < i ∧ i % tl = 0)
      ∧ ∀ i ∈ l, tl ≤ i := by
  induction n with
  | zero => exact ⟨[], rfl, by simp, by simp⟩
  | succ n ih =>
    obtain ⟨l, hl, hmem, hmin⟩ := ih
    have htl0 : tl ≠ 0 := by omega
    by_cases hn : 0 < n
    · have hstep : shouldSendStep tl n = .ok (n % tl == 0) := by
        unfold shouldSendStep
        simp [hn, htl0]
      by_cases hdvd : n % tl = 0
      · refine ⟨l ++ [n], ?_, ?_, ?_⟩
        · rw [sendSteps, hl, hstep]
          simp [hdvd]
        · intro i
          simp only [List.mem_append, List.mem_singleton, hmem]
          constructor
          · rintro (⟨h1, h2, h3⟩ | rfl)
            · exact ⟨by omega, h2, h3⟩
            · exact ⟨by omega, hn, hdvd⟩
          · rintro ⟨h1, h2, h3⟩
            by_cases hin : i = n
            · right; exact hin
            · left; exact ⟨by omega, h2, h3⟩
        · intro i hi
          rcases List.mem_append.mp hi with hi | hi
          · exact hmin i hi
          · have hin : i = n := by simpa using hi
            subst hin
            exact Nat.le_of_dvd hn (Nat.dvd_of_mod_eq_zero hdvd)
      · refine ⟨l, ?_, ?_, hmin⟩
        · rw [sendSteps, hl, hstep]
          simp [hdvd]
        · intro i
          rw [hmem]
          constructor
          · rintro ⟨h1, h2, h3⟩
            exact ⟨by omega, h2, h3⟩
          · rintro ⟨h1, h2, h3⟩
            refine ⟨?_, h2, h3⟩
            rcases Nat.lt_succ_iff_lt_or_eq.mp h1 with h | h
            · exact h
            · subst h
              exact absurd h3 hdvd
    · have hn0 : n = 0 := by omega
      subst hn0
      refine ⟨l, ?_, ?_, hmin⟩
      · rw [sendSteps, hl]
        rfl
      · intro i
        rw [hmem]
        constructor
        · rintro ⟨h1, h2, h3⟩
          omega
        · rintro ⟨h1, h2, h3⟩
          omega

/-- Witness for C10 at `traj_length = 2` over 5 iterations: sends occur
exactly at steps 2 and 4. -/
theorem send_steps_exact_witness :
    ∃ l, sendSteps 2 5 = .ok l
      ∧ (∀ i, i ∈ l ↔ i < 5 ∧ 0 < i ∧ i % 2 = 0)
      ∧ ∀ i ∈ l, 2 ≤ i :=
  send_steps_exact 2 (by decide) 5

theorem UniformReplay.size_insert {α : Type} (r : UniformReplay α) (x : α) :
    (r.insert x).size = min (r.size + 1) r.memorySize
    ∧ (r.insert x).memorySize = r.memorySize := by
  unfold UniformReplay.insert UniformReplay.size
  by_cases hm : r.memorySize < r.entries.length + 1
  · simp [hm]
    omega
  · simp [hm]
    omega

theorem UniformReplay.size_insertAll {α : Type} (xs : List α) :
    ∀ (r : UniformReplay α), r.size ≤ r.memorySize →
      (r.insertAll xs).size = min (r.size + xs.length) r.memorySize
      ∧ (r.insertAll xs).memorySize = r.memorySize := by
  induction xs with
  | nil =>
    intro r hr
    unfold UniformReplay.insertAll
    simp
    omega
  | cons x xs ih =>
    intro r hr
    have h1 := UniformReplay.size_insert r x
    have hle : (r.insert x).size ≤ (r.insert x).memorySize := by
      rw [h1.1, h1.2]
      omega
    obtain ⟨ha, hb⟩ := ih (r.insert x) hle
    have hfold : r.insertAll (x :: xs) = (r.insert x).insertAll xs := rfl
    rw [hfold, ha, hb, h1.1, h1.2]
    constructor
    · simp
      omega
    · rfl

/-- C4 (spec-modelled `UniformReplay`): starting from an empty buffer
of capacity `memory_size`, after the first `k` of any sequence of
inserts the length equals `min(k, memory_size)`; insert at capacity
always succeeds by evicting the oldest entry (never an error — the
insert is total and keeps the length at capacity); and the reference
scenario of 100 batches of size 4 into `memory_size = 100` gives
`len == min((i+1)*4, 100)` after the `i`-th batch. -/
theorem replay_length_invariant {α : Type} (m : Nat) (xs : List α) :
    (∀ k, ((UniformReplay.empty α m).insertAll (xs.take k)).size = min (min k xs.length) m)
    ∧ (∀ (r : UniformReplay α) (x : α), r.size = r.memorySize → 0 < r.memorySize →
        (r.insert x).entries = r.entries.tail ++ [x] ∧ (r.insert x).size = r.size)
    ∧ (∀ i < 100,
        ((UniformReplay.empty Nat 100).insertAll (List.replicate ((i + 1) * 4) 0)).size
          = min ((i + 1) * 4) 100) := by
  refine ⟨?_, ?_, ?_⟩
  · intro k
    have h := UniformReplay.size_insertAll (xs.take k) (UniformReplay.empty α m) (by simp [UniformReplay.empty, UniformReplay.size])
    rw [h.1]
    simp [UniformReplay.empty, UniformReplay.size]
  · intro r x hfull hpos
    have hlen : r.entries.length = r.memorySize := hfull
    constructor
    · unfold UniformReplay.insert
      have hcap : r.memorySize < r.entries.length + 1 := by omega
      simp [hcap]
      rw [show r.entries.length + 1 - r.memorySize = 1 by omega]
      rw [List.drop_append_of_le_length (by omega)]
      rw [List.drop_one]
    · have h1 := UniformReplay.size_insert r x
      rw [h1.1, hfull]
      omega
  · intro i _
    have h := UniformReplay.size_insertAll (List.replicate ((i + 1) * 4) 0)
      (UniformReplay.empty Nat 100) (by simp [UniformReplay.empty, UniformReplay.size])
    rw [h.1]
    simp [UniformReplay.empty, UniformReplay.size]

/-- Witness for C4: a capacity-100 buffer after 8 of 400 inserts holds
8 entries; a full capacity-2 buffer evicts its oldest entry on insert;
after batch `i = 2` of the reference scenario the length is 12. -/
theorem replay_length_invariant_witness :
    ((UniformReplay.empty Nat 100).insertAll ((List.replicate 400 0).take 8)).size
      = min (min 8 (List.replicate 400 0).length) 100
    ∧ ((UniformReplay.mk 2 [1, 2]).insert 3).entries = [1, 2].tail ++ [3]
    ∧ ((UniformReplay.mk 2 [1, 2]).insert 3).size = (UniformReplay.mk 2 [1, 2]).size
    ∧ ((UniformReplay.empty Nat 100).insertAll (List.replicate ((2 + 1) * 4) 0)).size
      = min ((2 + 1) * 4) 100 :=
  have h := replay_length_invariant 100 (List.replicate 400 (0 : Nat))
  have hev := h.2.1 (UniformReplay.mk 2 [1, 2]) 3 rfl (by decide)
  ⟨h.1 8, hev.1, hev.2, h.2.2 2 (by decide)⟩

theorem restoreScan_left_persist (scope : String) (varNames : List String)
    (n : String) :
    ∀ (ckpt : List String) (st : RestoreState), n ∈ st.left →
      (∀ v ∈ ckpt, rewriteScope scope v ≠ n) →
      (∃ e, restoreScan scope varNames ckpt st = .error e)
      ∨ ∃ st', restoreScan scope varNames ckpt st = .ok st' ∧ n ∈ st'.left := by
  intro ckpt
  induction ckpt with
  | nil =>
    intro st hn _
    exact .inr ⟨st, rfl, hn⟩
  | cons v rest ih =>
    intro st hn hall
    have hvn : rewriteScope scope v ≠ n := hall v (List.mem_cons_self v rest)
    have hrest : ∀ u ∈ rest, rewriteScope scope u ≠ n :=
      fun u hu => hall u (List.mem_cons_of_mem v hu)
    rw [restoreScan]
    by_cases h1 : rewriteScope scope v ∈ varNames
    · by_cases h2 : rewriteScope scope v ∈ st.left
      · simp only [h1, h2, if_pos]
        exact ih ⟨st.restoreMap ++ [(v, rewriteScope scope v)],
          st.left.erase (rewriteScope scope v), st.unrestored⟩
          ((List.mem_erase_of_ne hvn.symm).mpr hn) hrest
      · simp only [h1, h2, if_pos, if_neg, not_false_iff]
        exact .inl ⟨_, rfl⟩
    · by_cases h3 : checkpointIgnored v
      · simp only [h1, h3, if_neg, not_false_iff, if_pos]
        exact ih st hn hrest
      · simp only [h1, h3, if_neg, not_false_iff, Bool.not_eq_true]
        exact ih ⟨st.restoreMap, st.left, st.unrestored ++ [v]⟩ hn hrest

theorem restoreScan_unrestored_mono (scope : String) (varNames : List String) :
    ∀ (ckpt : List String) (st st' : RestoreState),
      restoreScan scope varNames ckpt st = .ok st' →
      ∀ x ∈ st.unrestored, x ∈ st'.unrestored := by
  intro ckpt
  induction ckpt with
  | nil =>
    intro st st' h x hx
    rw [restoreScan] at h
    cases h
    exact hx
  | cons v rest ih =>
    intro st st' h x hx
    rw [restoreScan] at h
    by_cases h1 : rewriteScope scope v ∈ varNames
    · by_cases h2 : rewriteScope scope v ∈ st.left
      · simp only [h1, h2, if_pos] at h
        exact ih _ st' h x hx
      · simp only [h1, h2, if_pos, if_neg, not_false_iff] at h
        exact Except.noConfusion h
    · by_cases h3 : checkpointIgnored v
      · simp only [h1, h3, if_neg, not_false_iff, if_pos] at h
        exact ih st st' h x hx
      · simp only [h1, h3, if_neg, not_false_iff, Bool.not_eq_true] at h
        exact ih _ st' h x (List.mem_append_left [v] hx)

theorem restoreScan_extra_lands (scope : String) (varNames : List String)
    (w : String) (hw1 : rewriteScope scope w ∉ varNames)
    (hw2 : checkpointIgnored w = false) :
    ∀ (ckpt : List String) (st : RestoreState), w ∈ ckpt →
      (∃ e, restoreScan scope varNames ckpt st = .error e)
      ∨ ∃ st', restoreScan scope varNames ckpt st = .ok st'
          ∧ w ∈ st'.unrestored := by
  intro ckpt
  induction ckpt with
  | nil =>
    intro st hmem
    exact absurd hmem (List.not_mem_nil w)
  | cons v rest ih =>
    intro st hmem
    rw [restoreScan]
    rcases List.mem_cons.mp hmem with hv | hv
    · subst hv
      simp only [hw1, hw2, if_neg, not_false_iff, Bool.false_eq_true]
      cases hscan : restoreScan scope varNames rest
          ⟨st.restoreMap, st.left, st.unrestored ++ [w]⟩ with
      | error e => exact .inl ⟨e, rfl⟩
      | ok st' =>
        refine .inr ⟨st', rfl, ?_⟩
        exact restoreScan_unrestored_mono scope varNames rest _ st' hscan w
          (List.mem_append_right st.unrestored (List.mem_singleton_self w))
    · by_cases h1 : rewriteScope scope v ∈ varNames
      · by_cases h2 : rewriteScope scope v ∈ st.left
        · simp only [h1, h2, if_pos]
          exact ih _ hv
        · simp only [h1, h2, if_pos, if_neg, not_false_iff]
          exact .inl ⟨_, rfl⟩
      · by_cases h3 : checkpointIgnored v
        · simp only [h1, h3, if_neg, not_false_iff, if_pos]
          exact ih st hv
        · simp only [h1, h3, if_neg, not_false_iff, Bool.not_eq_true]
          exact ih _ hv

/-- C8: restoring the shell from a checkpoint fails at startup — the
function raises instead of proceeding — whenever a required variable of
the agent scope is matched by no checkpoint entry (first conjunct), or
the checkpoint contains an unexpected extra entry: one neither matching
a required variable nor in the ignored learner-only families (second
conjunct); and restore returns successfully only when every required
variable is matched by some checkpoint entry (third conjunct). -/
theorem restore_mismatch_fatal (scope : String)
    (variableNames checkpointVars : List String) :
    ((∃ n ∈ variableNames.map stripDeviceSuffix,
        ∀ v ∈ checkpointVars, rewriteScope scope v ≠ n) →
      ∃ e, restoreFromCheckpoint scope variableNames checkpointVars = .error e)
    ∧ ((∃ w ∈ checkpointVars, rewriteScope scope w ∉ variableNames.map stripDeviceSuffix
        ∧ checkpointIgnored w = false) →
      ∃ e, restoreFromCheckpoint scope variableNames checkpointVars = .error e)
    ∧ (∀ rm, restoreFromCheckpoint scope variableNames checkpointVars = .ok rm →
      ∀ n ∈ variableNames.map stripDeviceSuffix,
        ∃ v ∈ checkpointVars, rewriteScope scope v = n) := by
  refine ⟨?_, ?_, ?_⟩
  · rintro ⟨n, hn, hall⟩
    have hn0 : n ∈ ((variableNames.map stripDeviceSuffix).dedup) :=
      List.mem_dedup.mpr hn
    rcases restoreScan_left_persist scope (variableNames.map stripDeviceSuffix) n
        checkpointVars ⟨[], (variableNames.map stripDeviceSuffix).dedup, []⟩ hn0 hall with
      ⟨e, he⟩ | ⟨st', hst', hnl⟩
    · exact ⟨e, by unfold restoreFromCheckpoint; rw [he]⟩
    · refine ⟨"Exception: not all required variables restored", ?_⟩
      unfold restoreFromCheckpoint
      rw [hst']
      have : st'.left.isEmpty = false := by
        cases hcase : st'.left with
        | nil => rw [hcase] at hnl; exact absurd hnl (List.not_mem_nil n)
        | cons a t => rfl
      simp [this]
  · rintro ⟨w, hw, hw1, hw2⟩
    rcases restoreScan_extra_lands scope (variableNames.map stripDeviceSuffix) w hw1 hw2
        checkpointVars ⟨[], (variableNames.map stripDeviceSuffix).dedup, []⟩ hw with
      ⟨e, he⟩ | ⟨st', hst', hwu⟩
    · exact ⟨e, by unfold restoreFromCheckpoint; rw [he]⟩
    · have hu : st'.unrestored.isEmpty = false := by
        cases hcase : st'.unrestored with
        | nil => rw [hcase] at hwu; exact absurd hwu (List.not_mem_nil w)
        | cons a t => rfl
      by_cases hl : st'.left.isEmpty
      · refine ⟨"Exception: unexpected variables found in the checkpoint", ?_⟩
        unfold restoreFromCheckpoint
        rw [hst']
        simp [hl, hu]
      · refine ⟨"Exception: not all required variables restored", ?_⟩
        unfold restoreFromCheckpoint
        rw [hst']
        simp [Bool.of_not_eq_true hl]
  · intro rm hok n hn
    by_contra hcontra
    push_neg at hcontra
    have hall : ∀ v ∈ checkpointVars, rewriteScope scope v ≠ n := hcontra
    have hn0 : n ∈ ((variableNames.map stripDeviceSuffix).dedup) :=
      List.mem_dedup.mpr hn
    rcases restoreScan_left_persist scope (variableNames.map stripDeviceSuffix) n
        checkpointVars ⟨[], (variableNames.map stripDeviceSuffix).dedup, []⟩ hn0 hall with
      ⟨e, he⟩ | ⟨st', hst', hnl⟩
    · unfold restoreFromCheckpoint at hok
      rw [he] at hok
      exact Except.noConfusion hok
    · unfold restoreFromCheckpoint at hok
      rw [hst'] at hok
      have hleft : st'.left.isEmpty = false := by
        cases hcase : st'.left with
        | nil => rw [hcase] at hnl; exact absurd hnl (List.not_mem_nil n)
        | cons a t => rfl
      simp [hleft] at hok

/-- Witness for C8: a shell requiring variable `shell/w:0` restored
from an empty checkpoint errors. -/
theorem restore_mismatch_fatal_witness :
    ∃ e, restoreFromCheckpoint "shell" ["shell/w:0"] [] = .error e :=
  (restore_mismatch_fatal "shell" ["shell/w:0"] []).1
    ⟨"shell/w", by decide, fun v hv => absurd hv (List.not_mem_nil v)⟩

end Liaison
